import Mathlib

/-!
Shallow embedding of `scripts/local_gmv.py` from the `gmv` repository.

Each definition mirrors one Python function of the source file; Python
floats are modelled as exact rationals, numpy arrays as lists, and Python
dicts as association lists with insertion-order update semantics.
-/

namespace GMV

/-- Python-dict lookup on an association list (at most one binding per key is
ever created, the first match wins). -/
def lookupA {V : Type} : List (String × V) → String → Option V
  | [], _ => none
  | kv :: rest, k => if kv.1 = k then some kv.2 else lookupA rest k

/-- Python-dict assignment `d[k] = v`: replace the binding in place when the
key is present (keeping its position), otherwise append at the end. -/
def insertA {V : Type} : List (String × V) → String → V → List (String × V)
  | [], k, v => [(k, v)]
  | kv :: rest, k, v => if kv.1 = k then (k, v) :: rest else kv :: insertA rest k v

/-- Python `d.update(e)`: the assignments of `e` performed in order. -/
def updateA {V : Type} (d e : List (String × V)) : List (String × V) :=
  e.foldl (fun a kv => insertA a kv.1 kv.2) d

/-- The last binding of a key in a list of assignments (the value that a
sequence of dict assignments leaves behind). -/
def lookupLast {V : Type} : List (String × V) → String → Option V
  | [], _ => none
  | kv :: rest, k =>
      match lookupLast rest k with
      | some v => some v
      | none => if kv.1 = k then some kv.2 else none

/-- First-of-two option choice, used to state dict-merge lemmas. -/
def orElseO {V : Type} : Option V → Option V → Option V
  | some v, _ => some v
  | none, b => b

theorem lookupA_insertA {V : Type} (d : List (String × V)) (k k' : String) (v : V) :
    lookupA (insertA d k v) k' = if k' = k then some v else lookupA d k' := by
  induction d with
  | nil =>
      simp only [insertA, lookupA]
      by_cases h : k' = k
      · rw [if_pos h, if_pos h.symm]
      · rw [if_neg h, if_neg (fun hh => h hh.symm)]
  | cons kv rest ih =>
      simp only [insertA]
      by_cases h1 : kv.1 = k
      · rw [if_pos h1]
        simp only [lookupA]
        by_cases h2 : k' = k
        · rw [if_pos h2, if_pos h2.symm]
        · rw [if_neg h2, if_neg (fun hh => h2 hh.symm),
            if_neg (fun hh : kv.1 = k' => h2 (h1.symm.trans hh).symm)]
      · rw [if_neg h1]
        simp only [lookupA, ih]
        by_cases h2 : kv.1 = k'
        · rw [if_pos h2, if_neg (fun hh : k' = k => h1 (h2.trans hh)), if_pos h2]
        · rw [if_neg h2]
          by_cases h3 : k' = k
          · rw [if_pos h3, if_pos h3]
          · rw [if_neg h3, if_neg h3, if_neg h2]

theorem mem_keys_insertA {V : Type} (d : List (String × V)) (k k' : String) (v : V) :
    k' ∈ (insertA d k v).map Prod.fst ↔ k' = k ∨ k' ∈ d.map Prod.fst := by
  induction d with
  | nil => simp [insertA]
  | cons kv rest ih =>
      simp only [insertA]
      by_cases h1 : kv.1 = k
      · rw [if_pos h1]
        simp only [List.map_cons, List.mem_cons]
        constructor
        · rintro (h | h)
          · exact Or.inl h
          · exact Or.inr (Or.inr h)
        · rintro (h | h | h)
          · exact Or.inl h
          · exact Or.inl (h.trans h1)
          · exact Or.inr h
      · rw [if_neg h1]
        simp only [List.map_cons, List.mem_cons, ih]
        tauto

theorem lookupA_isSome_iff_mem_keys {V : Type} (d : List (String × V)) (k : String) :
    (lookupA d k).isSome = true ↔ k ∈ d.map Prod.fst := by
  induction d with
  | nil => simp [lookupA]
  | cons kv rest ih =>
      simp only [lookupA, List.map_cons, List.mem_cons]
      by_cases h : kv.1 = k
      · simp [h]
      · rw [if_neg h, ih]
        constructor
        · exact fun hm => Or.inr hm
        · rintro (hh | hm)
          · exact absurd hh.symm h
          · exact hm

theorem lookupA_updateA {V : Type} (e : List (String × V)) :
    ∀ (d : List (String × V)) (k : String),
      lookupA (updateA d e) k = orElseO (lookupLast e k) (lookupA d k) := by
  induction e with
  | nil => intro d k; simp [updateA, lookupLast, orElseO]
  | cons kv rest ih =>
      intro d k
      have step : updateA d (kv :: rest) = updateA (insertA d kv.1 kv.2) rest := rfl
      rw [step, ih, lookupA_insertA]
      rcases hr : lookupLast rest k with _ | v
      · simp only [lookupLast, hr, orElseO]
        by_cases h : kv.1 = k
        · rw [if_pos h, if_pos h.symm]
        · rw [if_neg h, if_neg (fun hh => h hh.symm)]
      · simp only [lookupLast, hr, orElseO]

/-- Python 3 `round` (round half to even), as used in `int(round(x))`. -/
def pyRound (q : ℚ) : ℤ :=
  if q - ⌊q⌋ < 1 / 2 then ⌊q⌋
  else if 1 / 2 < q - ⌊q⌋ then ⌊q⌋ + 1
  else if ⌊q⌋ % 2 = 0 then ⌊q⌋ else ⌊q⌋ + 1

/-- ObsPy round-half-away-from-zero, used by `Trace.trim(nearest_sample=True)`. -/
def roundAway (q : ℚ) : ℤ := if 0 ≤ q then ⌊q + 1 / 2⌋ else ⌈q - 1 / 2⌉

theorem pyRound_neg {q : ℚ} (h : q < -(1 / 2)) : pyRound q < 0 := by
  have hfl : (⌊q⌋ : ℚ) ≤ q := Int.floor_le q
  have hf1 : ⌊q⌋ ≤ -1 := by
    have : (⌊q⌋ : ℚ) < -(1 / 2) := lt_of_le_of_lt hfl h
    have : (⌊q⌋ : ℚ) < 0 := lt_trans this (by norm_num)
    have h0 : ⌊q⌋ < 0 := by exact_mod_cast this
    omega
  unfold pyRound
  split_ifs with h1 h2 h3
  · omega
  · have hlt : (⌊q⌋ : ℚ) < -1 := by
      have := not_lt.mp h1
      linarith
    have : ⌊q⌋ < -1 := by exact_mod_cast hlt
    omega
  · have heq : q - ⌊q⌋ = 1 / 2 := le_antisymm (not_lt.mp h2) (not_lt.mp h1)
    have hlt : (⌊q⌋ : ℚ) < -1 := by linarith
    have : ⌊q⌋ < -1 := by exact_mod_cast hlt
    omega
  · have heq : q - ⌊q⌋ = 1 / 2 := le_antisymm (not_lt.mp h2) (not_lt.mp h1)
    have hlt : (⌊q⌋ : ℚ) < -1 := by linarith
    have : ⌊q⌋ < -1 := by exact_mod_cast hlt
    omega

theorem pyRound_ge {q : ℚ} {m : ℤ} (h : (m : ℚ) - 1 / 2 < q) : m ≤ pyRound q := by
  have hfu : q < (⌊q⌋ : ℚ) + 1 := Int.lt_floor_add_one q
  unfold pyRound
  split_ifs with h1 h2 h3
  · have hlt : (m : ℚ) < (⌊q⌋ : ℚ) + 1 := by linarith
    have : m < ⌊q⌋ + 1 := by exact_mod_cast hlt
    omega
  · have hlt : (m : ℚ) < (⌊q⌋ : ℚ) + 2 := by linarith
    have : m < ⌊q⌋ + 2 := by exact_mod_cast hlt
    omega
  · have heq : q - ⌊q⌋ = 1 / 2 := le_antisymm (not_lt.mp h2) (not_lt.mp h1)
    have hlt : (m : ℚ) < (⌊q⌋ : ℚ) + 1 := by linarith
    have : m < ⌊q⌋ + 1 := by exact_mod_cast hlt
    omega
  · have heq : q - ⌊q⌋ = 1 / 2 := le_antisymm (not_lt.mp h2) (not_lt.mp h1)
    have hlt : (m : ℚ) < (⌊q⌋ : ℚ) + 1 := by linarith
    have : m < ⌊q⌋ + 1 := by exact_mod_cast hlt
    omega

theorem roundAway_nonpos {q : ℚ} (h : q ≤ 0) : roundAway q ≤ 0 := by
  unfold roundAway
  split_ifs with h0
  · have : ⌊q + 1 / 2⌋ ≤ ⌊(0 : ℚ) + 1 / 2⌋ := Int.floor_mono (by linarith)
    have h12 : ⌊(0 : ℚ) + 1 / 2⌋ = 0 := by norm_num
    omega
  · have : q - 1 / 2 ≤ ((0 : ℤ) : ℚ) := by push_cast; linarith
    exact Int.ceil_le.mpr this

theorem roundAway_ge {q : ℚ} {m : ℤ} (h : (m : ℚ) ≤ q) : m ≤ roundAway q := by
  unfold roundAway
  split_ifs with h0
  · exact Int.le_floor.mpr (by linarith)
  · have : ((m : ℚ) - 1) < q - 1 / 2 := by linarith
    have hlt : ((m - 1 : ℤ) : ℚ) < q - 1 / 2 := by push_cast; linarith
    have := Int.lt_ceil.mpr hlt
    omega

/-- One ObsPy trace as used by the script: station identification, absolute
start time in seconds, sampling rate in Hz, and the sample array. Python
floats are modelled as exact rationals. -/
structure PyTrace where
  network : String
  station : String
  starttime : ℚ
  sampling_rate : ℚ
  data : List ℚ
deriving DecidableEq

/-- Model of `stream_station_key` (local_gmv.py lines 94-99): network and station
joined by a dot. -/
def stream_station_key (tr : PyTrace) : String := tr.network ++ "." ++ tr.station

/-- ObsPy `Trace._ltrim(start, pad=False, nearest_sample=True)`: drop the
samples before the sample nearest to `s`. -/
def ltrimTrace (tr : PyTrace) (s : ℚ) : PyTrace :=
  if 0 < roundAway ((s - tr.starttime) * tr.sampling_rate) then
    { tr with
      starttime := tr.starttime +
        ((roundAway ((s - tr.starttime) * tr.sampling_rate) : ℤ) : ℚ) / tr.sampling_rate,
      data := tr.data.drop (roundAway ((s - tr.starttime) * tr.sampling_rate)).toNat }
  else tr

/-- ObsPy `Trace._rtrim(e, pad=False, nearest_sample=True)`: when the trim
would shorten the data (delta < 0), keep the samples up to the sample nearest
to `e` — except that an end time strictly before the trace start empties the
data entirely (the `endtime < self.stats.starttime` branch of `_rtrim`);
otherwise the trace is returned unchanged. -/
def rtrimTrace (tr : PyTrace) (e : ℚ) : PyTrace :=
  if roundAway ((e - tr.starttime) * tr.sampling_rate) + 1 < (tr.data.length : ℤ) then
    if e < tr.starttime then { tr with data := [] }
    else
      { tr with
        data := tr.data.take (roundAway ((e - tr.starttime) * tr.sampling_rate) + 1).toNat }
  else tr

/-- Successful path of `tr2.trim(start, end, pad=False, nearest_sample=True)`
(local_gmv.py line 203): left trim, then right trim. -/
def trimTrace (tr : PyTrace) (s e : ℚ) : PyTrace := rtrimTrace (ltrimTrace tr s) e

/-- Model of the full `tr2.trim(start, end, pad=False, nearest_sample=True)`
call (local_gmv.py line 203): ObsPy raises ValueError when start > end,
modelled as `none` (caught by `prepare_meta`'s `except: continue`, dropping
the trace); otherwise the trim succeeds. -/
def trimTraceE (tr : PyTrace) (s e : ℚ) : Option PyTrace :=
  if e < s then none else some (trimTrace tr s e)

/-- Model of `float(np.max(np.abs(a)))` for a sample array (0 if empty). -/
def maxAbs (l : List ℚ) : ℚ := l.foldr (fun x m => max |x| m) 0

/-- Model of `sample_tr_at_time` (local_gmv.py lines 254-258): nearest-index lookup
with 0.0 returned for an out-of-range index. -/
def sample_tr_at_time (tr : PyTrace) (t : ℚ) : ℚ :=
  if pyRound ((t - tr.starttime) * tr.sampling_rate) < 0 ∨
      (tr.data.length : ℤ) ≤ pyRound ((t - tr.starttime) * tr.sampling_rate) then 0
  else tr.data.getD (pyRound ((t - tr.starttime) * tr.sampling_rate)).toNat 0

/-- The per-station normalized frame value computed inside `update`
(local_gmv.py line 274): `sample_tr_at_time(tr, t) / maxv`. -/
def frameValue (tr : PyTrace) (maxv : ℚ) (t : ℚ) : ℚ := sample_tr_at_time tr t / maxv

/-- Length of `np.arange(start, stop, step)` with rational arguments. -/
def numFrames (s e step : ℚ) : ℕ := (Int.ceil ((e - s) / step)).toNat

/-- Model of `np.arange(start.timestamp, end.timestamp, time_step)` (local_gmv.py
line 213). -/
def timesGrid (s e step : ℚ) : List ℚ :=
  (List.range (numFrames s e step)).map (fun i : ℕ => s + (i : ℚ) * step)

/-- Result of `prepare_meta` (local_gmv.py lines 186-215): trimmed traces,
times array, the station-key list and the per-station peak amplitudes. -/
structure PrepResult where
  station_traces : List (String × PyTrace)
  times : List ℚ
  station_keys : List String
  station_max : List (String × ℚ)
deriving DecidableEq

/-- Body of the trace loop in `prepare_meta` (local_gmv.py lines 196-211):
skip stations without a position, trim (dropping the trace when the trim
raises), drop empty results, and record the trimmed trace together with
`max(1.0, np.max(np.abs(data)))`. -/
def prepStep (positions : List (String × ℚ × ℚ)) (s e : ℚ)
    (acc : List (String × PyTrace) × List (String × ℚ)) (tr : PyTrace) :
    List (String × PyTrace) × List (String × ℚ) :=
  let key := stream_station_key tr
  if (lookupA positions key).isSome then
    match trimTraceE tr s e with
    | none => acc
    | some tr2 =>
        if tr2.data = [] then acc
        else (insertA acc.1 key tr2, insertA acc.2 key (max 1 (maxAbs tr2.data)))
  else acc

/-- Model of `prepare_meta` (local_gmv.py lines 186-215). -/
def prepare_meta (st : List PyTrace) (positions : List (String × ℚ × ℚ))
    (s e tstep : ℚ) : PrepResult :=
  let p := st.foldl (prepStep positions s e) ([], [])
  { station_traces := p.1, times := timesGrid s e tstep,
    station_keys := p.1.map Prod.fst, station_max := p.2 }

/-- The candidate scale list of `_pick_segy_scale` (local_gmv.py line 105). -/
def candidates : List ℚ :=
  [1 / 1000, 1 / 10000, 1 / 100000, 1 / 1000000, 1 / 10000000,
   1 / 100000000, 1 / 1000000000]

/-- The in-range test of `_pick_segy_scale` (local_gmv.py line 111): a header
pair whose scaled longitude is strictly inside (-180, 180) and scaled
latitude strictly inside (-90, 90). -/
def inRangeQ (sc : ℚ) (xy : ℚ × ℚ) : Bool :=
  decide (-180 < xy.1 * sc) && decide (xy.1 * sc < 180) &&
    decide (-90 < xy.2 * sc) && decide (xy.2 * sc < 90)

/-- Score (`score`) at one candidate scale (local_gmv.py line 112): the fraction of
header coordinate pairs that land in range (pairs taken as `(GroupX, GroupY)`
columns of equal length). -/
def inRangeFrac (gx gy : List ℚ) (sc : ℚ) : ℚ :=
  (((gx.zip gy).countP (inRangeQ sc) : ℚ)) / (((gx.zip gy).length : ℕ) : ℚ)

/-- One iteration of the best-score loop (local_gmv.py lines 108-115). -/
def pickStep (f : ℚ → ℚ) (acc : Option ℚ × ℚ) (sc : ℚ) : Option ℚ × ℚ :=
  if acc.2 < f sc then (some sc, f sc) else acc

/-- Model of `_pick_segy_scale` (local_gmv.py lines 102-119): keep the candidate with
the best score, then require at least 95% in range. -/
def _pick_segy_scale (gx gy : List ℚ) : Option ℚ :=
  let p := candidates.foldl (pickStep (inRangeFrac gx gy)) (none, -1)
  if 95 / 100 ≤ p.2 then p.1 else none

/-- The scale actually applied to header coordinates by `segy_to_stream`
(local_gmv.py lines 152-155): the picked scale, or the documented default
1e-6 when no candidate was confident. -/
def segyScale (gx gy : List ℚ) : ℚ :=
  match _pick_segy_scale gx gy with
  | some sc => sc
  | none => 1 / 1000000

/-- Zero-padded 5-digit decimal rendering, for the `f"SGY.{n:05d}"` station
names of `segy_to_stream` (local_gmv.py line 161). -/
def pad5 (n : ℕ) : String :=
  let s := Nat.repr n
  String.mk (List.replicate (5 - s.length) (Char.ofNat 48)) ++ s

/-- The positions-dict key for SEG-Y trace number `num`
(`f"{tr.stats.network}.{tr.stats.station}"`, local_gmv.py line 182). -/
def segyKey (num : ℕ) : String := "SGY.SGY." ++ pad5 num

/-- The `(key, (lat, lon))` assignments performed by the trace loop of
`segy_to_stream` (local_gmv.py lines 157-182), with trace numbers defaulting
to `i + 1`. -/
def segyAssignments (gx gy : List ℚ) : List (String × ℚ × ℚ) :=
  ((gx.zip gy).enum).map
    (fun p => (segyKey (p.1 + 1), (p.2.2 * segyScale gx gy, p.2.1 * segyScale gx gy)))

/-- The positions dict returned by `segy_to_stream` (local_gmv.py line 182). -/
def segy_to_stream_positions (gx gy : List ℚ) : List (String × ℚ × ℚ) :=
  (segyAssignments gx gy).foldl (fun d kv => insertA d kv.1 kv.2) []

/-- Model of `line.strip().split(',')` with each field stripped (local_gmv.py
line 72). -/
def parse_fields (line : String) : List String :=
  (line.trim.splitOn ",").map String.trim

/-- Body of the row loop of `load_station_csv` (local_gmv.py lines 69-81),
with Python `float` parsing abstracted by `pf`. -/
def csv_step (pf : String → ℚ) (d : List (String × ℚ × ℚ)) (line : String) :
    List (String × ℚ × ℚ) :=
  if line.trim = "" then d
  else
    match parse_fields line with
    | [net, sta, lat, lon] => insertA d (net ++ "." ++ sta) (pf lat, pf lon)
    | [sta, lat, lon] => insertA d sta (pf lat, pf lon)
    | _ => d

/-- Model of `load_station_csv` (local_gmv.py lines 64-82): the first line is consumed
as a header, the remaining lines are folded into the dict. -/
def load_station_csv (pf : String → ℚ) : List String → List (String × ℚ × ℚ)
  | [] => []
  | _hdr :: rows => rows.foldl (csv_step pf) []

/-- The station-position merging flow of `main` (local_gmv.py lines 310-346):
SEG-Y-derived positions first; then `positions.update` from StationXML if
given, else from the CSV if given, else fill unresolved keys from SAC
headers. `sacTraces` lists each trace's key with its optional header
coordinates. -/
def resolvePositions (segyPos : List (String × ℚ × ℚ))
    (stationXml stationCsv : Option (List (String × ℚ × ℚ)))
    (sacTraces : List (String × Option (ℚ × ℚ))) : List (String × ℚ × ℚ) :=
  let positions := updateA [] segyPos
  match stationXml with
  | some inv => updateA positions inv
  | none =>
    match stationCsv with
    | some tbl => updateA positions tbl
    | none =>
        sacTraces.foldl
          (fun d kv =>
            match kv.2 with
            | some p => if (lookupA d kv.1).isSome then d else insertA d kv.1 p
            | none => d)
          positions

/-- Exit behaviour of one run of `main` after ingestion (local_gmv.py
lines 349-404). -/
inductive RunOutcome where
  | exitNoPositions
  | exitEmptyWindow
  | exitTooManyFrames
  | exitMemExceeded
  | dryRunDone (nFrames : ℤ) (nStations : ℕ)
  | exitNoStations
  | rendered (stationKeys : List String) (nFrames : ℕ)
deriving DecidableEq

/-- Process exit status of each outcome (`sys.exit(1)` vs `sys.exit(0)` /
normal return). -/
def exitCode : RunOutcome → ℕ
  | .dryRunDone _ _ => 0
  | .rendered _ _ => 0
  | _ => 1

/-- Model of `main` from the positions-empty check onward (local_gmv.py lines
349-404): the budget guard runs before `prepare_meta`, and an empty
surviving-station set exits with status 1. -/
def mainRun (st : List PyTrace) (positions : List (String × ℚ × ℚ))
    (s e tstep : ℚ) (maxFrames maxMemMb : ℤ) (dryRun : Bool) : RunOutcome :=
  if positions = [] then .exitNoPositions
  else
    let nFrames : ℤ := if 0 < e - s then Int.ceil ((e - s) / tstep) else 0
    let nStations : ℤ := max 1 (positions.length : ℤ)
    let estMb : ℚ := ((nFrames * nStations * 4 : ℤ) : ℚ) / (1024 * 1024)
    if nFrames ≤ 0 then .exitEmptyWindow
    else if maxFrames < nFrames then .exitTooManyFrames
    else if (maxMemMb : ℚ) < estMb * (3 / 2) then .exitMemExceeded
    else if dryRun then .dryRunDone nFrames positions.length
    else
      let pr := prepare_meta st positions s e tstep
      if pr.station_keys = [] then .exitNoStations
      else .rendered pr.station_keys pr.times.length

theorem timesGrid_getD (s e step : ℚ) (i : ℕ) (hi : i < numFrames s e step) :
    (timesGrid s e step).getD i 0 = s + (i : ℚ) * step := by
  unfold timesGrid
  rw [List.getD_eq_getElem?_getD, List.getElem?_map, List.getElem?_range hi]
  rfl

theorem timesGrid_length (s e step : ℚ) :
    (timesGrid s e step).length = numFrames s e step := by
  unfold timesGrid
  rw [List.length_map, List.length_range]

/-- C4: for every start < end and step > 0, the Time Grid produced by Prepare
has exactly ceil((end-start)/step) entries, has constant spacing step, and is
strictly increasing. -/
theorem prepare_time_grid_spec (st : List PyTrace) (positions : List (String × ℚ × ℚ))
    (s e tstep : ℚ) (hse : s < e) (hstep : 0 < tstep) :
    (((prepare_meta st positions s e tstep).times.length : ℤ) = ⌈(e - s) / tstep⌉) ∧
    (∀ i : ℕ, i + 1 < (prepare_meta st positions s e tstep).times.length →
      (prepare_meta st positions s e tstep).times.getD (i + 1) 0 -
        (prepare_meta st positions s e tstep).times.getD i 0 = tstep) ∧
    (∀ i j : ℕ, i < j → j < (prepare_meta st positions s e tstep).times.length →
      (prepare_meta st positions s e tstep).times.getD i 0 <
        (prepare_meta st positions s e tstep).times.getD j 0) := by
  have htimes : (prepare_meta st positions s e tstep).times = timesGrid s e tstep := rfl
  have hlen : (timesGrid s e tstep).length = numFrames s e tstep := timesGrid_length s e tstep
  have hpos : (0 : ℤ) < ⌈(e - s) / tstep⌉ :=
    Int.ceil_pos.mpr (div_pos (by linarith) hstep)
  refine ⟨?_, ?_, ?_⟩
  · rw [htimes, hlen]
    unfold numFrames
    exact_mod_cast Int.toNat_of_nonneg (le_of_lt hpos)
  · intro i hi
    rw [htimes] at hi ⊢
    rw [hlen] at hi
    rw [timesGrid_getD s e tstep (i + 1) hi, timesGrid_getD s e tstep i (by omega)]
    push_cast
    ring
  · intro i j hij hj
    rw [htimes] at hj ⊢
    rw [hlen] at hj
    rw [timesGrid_getD s e tstep i (by omega), timesGrid_getD s e tstep j hj]
    have : (i : ℚ) * tstep < (j : ℚ) * tstep := by
      apply mul_lt_mul_of_pos_right _ hstep
      exact_mod_cast hij
    linarith

theorem prepare_time_grid_spec_witness :
    (0 : ℚ) < 600 ∧ (0 : ℚ) < 1 ∧
      ((prepare_meta [] [] 0 600 1).times.length : ℤ) = 600 := by
  refine ⟨by norm_num, by norm_num, ?_⟩
  have h := (prepare_time_grid_spec [] [] 0 600 1 (by norm_num) (by norm_num)).1
  rw [h]
  norm_num

/-- C5 (amended): SampleAt returns the amplitude at index
round((t - start) * samplingRate) when that index is in bounds, returns 0.0
whenever the rounded index is negative or at least the array length, and a
time earlier than start - 1/(2*rate) (resp. later than the trace end plus
half a sample period) is guaranteed to be out of bounds; a time less than
half a sample period before the start may still hit index 0. -/
theorem sample_tr_at_time_spec (tr : PyTrace) (t : ℚ) :
    (0 ≤ pyRound ((t - tr.starttime) * tr.sampling_rate) →
      pyRound ((t - tr.starttime) * tr.sampling_rate) < (tr.data.length : ℤ) →
      sample_tr_at_time tr t =
        tr.data.getD (pyRound ((t - tr.starttime) * tr.sampling_rate)).toNat 0) ∧
    (pyRound ((t - tr.starttime) * tr.sampling_rate) < 0 ∨
        (tr.data.length : ℤ) ≤ pyRound ((t - tr.starttime) * tr.sampling_rate) →
      sample_tr_at_time tr t = 0) ∧
    (0 < tr.sampling_rate → t < tr.starttime - 1 / (2 * tr.sampling_rate) →
      sample_tr_at_time tr t = 0) ∧
    (0 < tr.sampling_rate →
      tr.starttime + ((tr.data.length : ℚ) - 1) / tr.sampling_rate
          + 1 / (2 * tr.sampling_rate) < t →
      sample_tr_at_time tr t = 0) := by
  refine ⟨?_, ?_, ?_, ?_⟩
  · intro h1 h2
    unfold sample_tr_at_time
    rw [if_neg]
    push_neg
    exact ⟨h1, h2⟩
  · intro h
    unfold sample_tr_at_time
    rw [if_pos h]
  · intro hsr ht
    have hq : (t - tr.starttime) * tr.sampling_rate < -(1 / 2) := by
      have h3 : t - tr.starttime < -(1 / (2 * tr.sampling_rate)) := by linarith
      calc (t - tr.starttime) * tr.sampling_rate
          < -(1 / (2 * tr.sampling_rate)) * tr.sampling_rate :=
            mul_lt_mul_of_pos_right h3 hsr
        _ = -(1 / 2) := by field_simp; ring
    unfold sample_tr_at_time
    rw [if_pos (Or.inl (pyRound_neg hq))]
  · intro hsr ht
    have hq : ((tr.data.length : ℤ) : ℚ) - 1 / 2 < (t - tr.starttime) * tr.sampling_rate := by
      have h3 : ((tr.data.length : ℚ) - 1) / tr.sampling_rate + 1 / (2 * tr.sampling_rate)
          < t - tr.starttime := by linarith
      have h4 : (((tr.data.length : ℚ) - 1) / tr.sampling_rate
            + 1 / (2 * tr.sampling_rate)) * tr.sampling_rate
          < (t - tr.starttime) * tr.sampling_rate := mul_lt_mul_of_pos_right h3 hsr
      have h5 : (((tr.data.length : ℚ) - 1) / tr.sampling_rate
            + 1 / (2 * tr.sampling_rate)) * tr.sampling_rate
          = (tr.data.length : ℚ) - 1 / 2 := by field_simp; ring
      rw [h5] at h4
      push_cast
      exact h4
    unfold sample_tr_at_time
    rw [if_pos (Or.inr (pyRound_ge hq))]

theorem sample_tr_at_time_spec_witness :
    (0 : ℚ) < (1 : ℚ) ∧ ((-3 : ℚ) < (0 : ℚ) - 1 / (2 * 1)) ∧
      sample_tr_at_time ⟨"XX", "ABC", 0, 1, [(5 : ℚ)]⟩ (-3) = 0 := by
  refine ⟨by norm_num, by norm_num, ?_⟩
  exact (sample_tr_at_time_spec ⟨"XX", "ABC", 0, 1, [(5 : ℚ)]⟩ (-3)).2.2.1
    (by norm_num) (by norm_num)

/-- C5 counterexample: a time strictly before the trace start (a quarter of a
sample period early) is sampled at index 0 and returns the first amplitude,
not 0.0. -/
theorem sample_before_start_counterexample :
    (-1 / 4 : ℚ) < (PyTrace.mk "XX" "ABC" 0 1 [(5 : ℚ)]).starttime ∧
      sample_tr_at_time (PyTrace.mk "XX" "ABC" 0 1 [(5 : ℚ)]) (-1 / 4) = 5 ∧
      (5 : ℚ) ≠ 0 := by
  refine ⟨by norm_num, ?_, by norm_num⟩
  norm_num [sample_tr_at_time, pyRound]

/-- C8: a trace lying entirely inside the requested window is not modified by
the nearest-sample trim: every sample survives. -/
theorem trim_round_trip_spec (tr : PyTrace) (s e : ℚ)
    (hsr : 0 < tr.sampling_rate) (_hn : 1 ≤ tr.data.length)
    (hs : s ≤ tr.starttime)
    (he : tr.starttime + ((tr.data.length : ℚ) - 1) / tr.sampling_rate ≤ e) :
    (trimTrace tr s e).data = tr.data := by
  have hl : ltrimTrace tr s = tr := by
    have hd : roundAway ((s - tr.starttime) * tr.sampling_rate) ≤ 0 := by
      apply roundAway_nonpos
      apply mul_nonpos_iff.mpr
      exact Or.inr ⟨by linarith, le_of_lt hsr⟩
    unfold ltrimTrace
    rw [if_neg (not_lt.mpr hd)]
  have hr : rtrimTrace tr e = tr := by
    have hk : ((tr.data.length : ℤ) - 1) ≤ roundAway ((e - tr.starttime) * tr.sampling_rate) := by
      apply roundAway_ge
      have h2 : (tr.data.length : ℚ) - 1 ≤ (e - tr.starttime) * tr.sampling_rate := by
        rw [← div_le_iff₀ hsr] at *
        linarith [he]
      push_cast
      exact h2
    unfold rtrimTrace
    rw [if_neg (by omega)]
  unfold trimTrace
  rw [hl, hr]

theorem prep_linked (positions : List (String × ℚ × ℚ)) (s e : ℚ) :
    ∀ (st : List PyTrace) (acc : List (String × PyTrace) × List (String × ℚ)),
      (∀ k, lookupA acc.2 k =
        (lookupA acc.1 k).map (fun tr2 => max 1 (maxAbs tr2.data))) →
      ∀ k, lookupA (st.foldl (prepStep positions s e) acc).2 k =
        (lookupA (st.foldl (prepStep positions s e) acc).1 k).map
          (fun tr2 => max 1 (maxAbs tr2.data)) := by
  intro st
  induction st with
  | nil => intro acc hacc k; exact hacc k
  | cons tr rest ih =>
      intro acc hacc k
      rw [List.foldl_cons]
      apply ih
      intro k'
      unfold prepStep
      by_cases hpos : (lookupA positions (stream_station_key tr)).isSome
      · rw [if_pos hpos]
        rcases htr : trimTraceE tr s e with _ | tr2
        · simp only [htr]
          exact hacc k'
        · simp only [htr]
          by_cases hemp : tr2.data = []
          · rw [if_pos hemp]
            exact hacc k'
          · rw [if_neg hemp]
            rw [lookupA_insertA, lookupA_insertA]
            by_cases hk : k' = stream_station_key tr
            · rw [if_pos hk, if_pos hk]
              rfl
            · rw [if_neg hk, if_neg hk]
              exact hacc k'
      · rw [if_neg hpos]
        exact hacc k'

theorem maxAbs_of_all_zero {l : List ℚ} (h : ∀ x ∈ l, x = 0) : maxAbs l = 0 := by
  induction l with
  | nil => rfl
  | cons x rest ih =>
      have hx : x = 0 := h x (List.mem_cons_self x rest)
      have hrest : maxAbs rest = 0 := ih (fun y hy => h y (List.mem_cons_of_mem x hy))
      unfold maxAbs at hrest ⊢
      rw [List.foldr_cons, hrest, hx]
      norm_num

theorem getD_of_all_zero {l : List ℚ} (h : ∀ x ∈ l, x = 0) : ∀ i : ℕ,
    l.getD i 0 = 0 := by
  induction l with
  | nil => intro i; cases i <;> rfl
  | cons x rest ih =>
      intro i
      cases i with
      | zero =>
          rw [List.getD_cons_zero]
          exact h x (List.mem_cons_self x rest)
      | succ n =>
          rw [List.getD_cons_succ]
          exact ih (fun y hy => h y (List.mem_cons_of_mem x hy)) n

/-- C6: for every station retained by Prepare, the stored peak amplitude is
max(1.0, max |sample|) of the trimmed trace; it is positive, and a station
whose trimmed samples are all zero gets peak exactly 1.0 and normalized frame
value 0.0 at every time. -/
theorem prepare_station_max_spec (st : List PyTrace) (positions : List (String × ℚ × ℚ))
    (s e tstep : ℚ) (k : String) (tr2 : PyTrace)
    (h : lookupA (prepare_meta st positions s e tstep).station_traces k = some tr2) :
    lookupA (prepare_meta st positions s e tstep).station_max k
        = some (max 1 (maxAbs tr2.data)) ∧
    0 < max 1 (maxAbs tr2.data) ∧
    ((∀ x ∈ tr2.data, x = 0) →
      max 1 (maxAbs tr2.data) = 1 ∧
        ∀ t : ℚ, frameValue tr2 (max 1 (maxAbs tr2.data)) t = 0) := by
  have hlink := prep_linked positions s e st ([], [])
    (fun _ => rfl) k
  have htr : (prepare_meta st positions s e tstep).station_traces
      = (st.foldl (prepStep positions s e) ([], [])).1 := rfl
  have hmx : (prepare_meta st positions s e tstep).station_max
      = (st.foldl (prepStep positions s e) ([], [])).2 := rfl
  refine ⟨?_, ?_, ?_⟩
  · rw [hmx, hlink, ← htr, h]
    rfl
  · exact lt_of_lt_of_le zero_lt_one (le_max_left 1 (maxAbs tr2.data))
  · intro hz
    have hm : max 1 (maxAbs tr2.data) = 1 := by
      rw [maxAbs_of_all_zero hz]
      norm_num
    refine ⟨hm, ?_⟩
    intro t
    unfold frameValue sample_tr_at_time
    split_ifs with hidx
    · exact zero_div _
    · rw [getD_of_all_zero hz]
      exact zero_div _

theorem prepare_station_max_spec_witness :
    lookupA (prepare_meta [⟨"XX", "ABC", 0, 1, [(0 : ℚ), 0]⟩]
        [("XX.ABC", ((0 : ℚ), (0 : ℚ)))] 0 5 1).station_traces "XX.ABC"
      = some ⟨"XX", "ABC", 0, 1, [(0 : ℚ), 0]⟩ ∧
    lookupA (prepare_meta [⟨"XX", "ABC", 0, 1, [(0 : ℚ), 0]⟩]
        [("XX.ABC", ((0 : ℚ), (0 : ℚ)))] 0 5 1).station_max "XX.ABC"
      = some (max 1 (maxAbs [(0 : ℚ), 0])) := by
  have h : lookupA (prepare_meta [⟨"XX", "ABC", 0, 1, [(0 : ℚ), 0]⟩]
      [("XX.ABC", ((0 : ℚ), (0 : ℚ)))] 0 5 1).station_traces "XX.ABC"
      = some ⟨"XX", "ABC", 0, 1, [(0 : ℚ), 0]⟩ := by
    norm_num [prepare_meta, prepStep, stream_station_key, lookupA, insertA,
      trimTraceE, trimTrace, ltrimTrace, rtrimTrace, roundAway,
      (show ("XX" ++ "." ++ "ABC" : String) = "XX.ABC" by decide)]
  exact ⟨h, (prepare_station_max_spec _ _ 0 5 1 "XX.ABC" _ h).1⟩

theorem prep_keys_mem (positions : List (String × ℚ × ℚ)) (s e : ℚ) :
    ∀ (st : List PyTrace) (acc : List (String × PyTrace) × List (String × ℚ)) (k : String),
      (k ∈ (st.foldl (prepStep positions s e) acc).1.map Prod.fst ↔
        k ∈ acc.1.map Prod.fst ∨
          ∃ tr, tr ∈ st ∧ stream_station_key tr = k ∧
            (lookupA positions k).isSome = true ∧
            ∃ tr2, trimTraceE tr s e = some tr2 ∧ tr2.data ≠ []) := by
  intro st
  induction st with
  | nil => intro acc k; simp
  | cons tr rest ih =>
      intro acc k
      rw [List.foldl_cons]
      rw [ih]
      unfold prepStep
      by_cases hpos : (lookupA positions (stream_station_key tr)).isSome
      · rw [if_pos hpos]
        rcases htr : trimTraceE tr s e with _ | tr2
        · simp only [htr]
          constructor
          · rintro (ha | ⟨tr', htr', hk', hs', tr2', ht2', hne'⟩)
            · exact Or.inl ha
            · exact Or.inr ⟨tr', List.mem_cons_of_mem tr htr', hk', hs', tr2', ht2', hne'⟩
          · rintro (ha | ⟨tr', htr', hk', hs', tr2', ht2', hne'⟩)
            · exact Or.inl ha
            · rcases List.mem_cons.mp htr' with heq | hmem
              · subst heq
                rw [htr] at ht2'
                exact absurd ht2' (by simp)
              · exact Or.inr ⟨tr', hmem, hk', hs', tr2', ht2', hne'⟩
        · simp only [htr]
          by_cases hemp : tr2.data = []
          · rw [if_pos hemp]
            constructor
            · rintro (ha | ⟨tr', htr', hk', hs', tr2', ht2', hne'⟩)
              · exact Or.inl ha
              · exact Or.inr ⟨tr', List.mem_cons_of_mem tr htr', hk', hs', tr2', ht2', hne'⟩
            · rintro (ha | ⟨tr', htr', hk', hs', tr2', ht2', hne'⟩)
              · exact Or.inl ha
              · rcases List.mem_cons.mp htr' with heq | hmem
                · subst heq
                  rw [htr] at ht2'
                  have h2 : tr2 = tr2' := Option.some_inj.mp ht2'
                  rw [← h2] at hne'
                  exact absurd hemp hne'
                · exact Or.inr ⟨tr', hmem, hk', hs', tr2', ht2', hne'⟩
          · rw [if_neg hemp]
            rw [mem_keys_insertA]
            constructor
            · rintro ((hk | ha) | ⟨tr', htr', hk', hs', tr2', ht2', hne'⟩)
              · subst hk
                exact Or.inr ⟨tr, List.mem_cons_self tr rest, rfl, hpos, tr2, htr, hemp⟩
              · exact Or.inl ha
              · exact Or.inr ⟨tr', List.mem_cons_of_mem tr htr', hk', hs', tr2', ht2', hne'⟩
            · rintro (ha | ⟨tr', htr', hk', hs', tr2', ht2', hne'⟩)
              · exact Or.inl (Or.inr ha)
              · rcases List.mem_cons.mp htr' with heq | hmem
                · subst heq
                  exact Or.inl (Or.inl hk'.symm)
                · exact Or.inr ⟨tr', hmem, hk', hs', tr2', ht2', hne'⟩
      · rw [if_neg hpos]
        constructor
        · rintro (ha | ⟨tr', htr', hk', hs', tr2', ht2', hne'⟩)
          · exact Or.inl ha
          · exact Or.inr ⟨tr', List.mem_cons_of_mem tr htr', hk', hs', tr2', ht2', hne'⟩
        · rintro (ha | ⟨tr', htr', hk', hs', tr2', ht2', hne'⟩)
          · exact Or.inl ha
          · rcases List.mem_cons.mp htr' with heq | hmem
            · subst heq
              rw [hk'] at hpos
              exact absurd hs' hpos
            · exact Or.inr ⟨tr', hmem, hk', hs', tr2', ht2', hne'⟩

theorem trimTrace_sublist (tr : PyTrace) (s e : ℚ) :
    (trimTrace tr s e).data.Sublist tr.data := by
  have h1 : (ltrimTrace tr s).data.Sublist tr.data := by
    unfold ltrimTrace
    split_ifs
    · exact List.drop_sublist _ _
    · exact List.Sublist.refl _
  have h2 : (rtrimTrace (ltrimTrace tr s) e).data.Sublist (ltrimTrace tr s).data := by
    unfold rtrimTrace
    split_ifs
    · exact List.nil_sublist _
    · exact List.take_sublist _ _
    · exact List.Sublist.refl _
  exact h2.trans h1

/-- C7: Prepare retains exactly those traces whose station key has a resolved
position and whose trim succeeds (ObsPy raises when start > end, and the
trace is dropped) with non-empty trimmed data; trimming never pads (a
successfully trimmed data array is a sublist of the original, hence no
longer); and an empty surviving-station set causes `main` to exit with
status 1 after the budget gates pass. -/
theorem prepare_retention_spec (st : List PyTrace) (positions : List (String × ℚ × ℚ))
    (s e tstep : ℚ) (maxFrames maxMemMb : ℤ) :
    (∀ k, k ∈ (prepare_meta st positions s e tstep).station_keys ↔
      ∃ tr, tr ∈ st ∧ stream_station_key tr = k ∧
        (lookupA positions k).isSome = true ∧
        ∃ tr2, trimTraceE tr s e = some tr2 ∧ tr2.data ≠ []) ∧
    (∀ (tr tr2 : PyTrace), trimTraceE tr s e = some tr2 →
      tr2.data.Sublist tr.data ∧ tr2.data.length ≤ tr.data.length) ∧
    (positions ≠ [] →
      ¬((if 0 < e - s then (⌈(e - s) / tstep⌉ : ℤ) else 0) ≤ 0) →
      ¬(maxFrames < (if 0 < e - s then (⌈(e - s) / tstep⌉ : ℤ) else 0)) →
      ¬((maxMemMb : ℚ) <
        (((if 0 < e - s then (⌈(e - s) / tstep⌉ : ℤ) else 0) *
            max 1 (positions.length : ℤ) * 4 : ℤ) : ℚ) / (1024 * 1024) * (3 / 2)) →
      (prepare_meta st positions s e tstep).station_keys = [] →
      mainRun st positions s e tstep maxFrames maxMemMb false
          = RunOutcome.exitNoStations ∧
        exitCode (mainRun st positions s e tstep maxFrames maxMemMb false) = 1) := by
  refine ⟨?_, ?_, ?_⟩
  · intro k
    have hkeys : (prepare_meta st positions s e tstep).station_keys
        = (st.foldl (prepStep positions s e) ([], [])).1.map Prod.fst := rfl
    rw [hkeys, prep_keys_mem positions s e st ([], []) k]
    simp
  · intro tr tr2 htr
    have h2 : tr2 = trimTrace tr s e := by
      unfold trimTraceE at htr
      by_cases hse : e < s
      · rw [if_pos hse] at htr
        exact absurd htr (by simp)
      · rw [if_neg hse] at htr
        exact (Option.some_inj.mp htr).symm
    rw [h2]
    exact ⟨trimTrace_sublist tr s e, (trimTrace_sublist tr s e).length_le⟩
  · intro hpos h1 h2 h3 hkeys
    have hrun : mainRun st positions s e tstep maxFrames maxMemMb false
        = RunOutcome.exitNoStations := by
      unfold mainRun
      rw [if_neg hpos, if_neg h1, if_neg h2, if_neg h3]
      simp only [Bool.false_eq_true, if_false]
      rw [if_pos hkeys]
    exact ⟨hrun, by rw [hrun]; rfl⟩

theorem prepare_retention_spec_witness :
    ([("A.B", ((0 : ℚ), (0 : ℚ)))] : List (String × ℚ × ℚ)) ≠ [] ∧
    ¬((if (0 : ℚ) < 1 - 0 then (⌈((1 : ℚ) - 0) / 1⌉ : ℤ) else 0) ≤ 0) ∧
    ¬((10 : ℤ) < (if (0 : ℚ) < 1 - 0 then (⌈((1 : ℚ) - 0) / 1⌉ : ℤ) else 0)) ∧
    ¬(((4096 : ℤ) : ℚ) <
      (((if (0 : ℚ) < 1 - 0 then (⌈((1 : ℚ) - 0) / 1⌉ : ℤ) else 0) *
          max 1 (([("A.B", ((0 : ℚ), (0 : ℚ)))] : List (String × ℚ × ℚ)).length : ℤ)
          * 4 : ℤ) : ℚ) / (1024 * 1024) * (3 / 2)) ∧
    (prepare_meta [] [("A.B", ((0 : ℚ), (0 : ℚ)))] 0 1 1).station_keys = [] ∧
    mainRun [] [("A.B", ((0 : ℚ), (0 : ℚ)))] 0 1 1 10 4096 false
      = RunOutcome.exitNoStations := by
  have hceil : (⌈((1 : ℚ) - 0) / 1⌉ : ℤ) = 1 := by norm_num
  have h1 : ¬((if (0 : ℚ) < 1 - 0 then (⌈((1 : ℚ) - 0) / 1⌉ : ℤ) else 0) ≤ 0) := by
    rw [if_pos (by norm_num), hceil]
    norm_num
  have h2 : ¬((10 : ℤ) < (if (0 : ℚ) < 1 - 0 then (⌈((1 : ℚ) - 0) / 1⌉ : ℤ) else 0)) := by
    rw [if_pos (by norm_num), hceil]
    norm_num
  have h3 : ¬(((4096 : ℤ) : ℚ) <
      (((if (0 : ℚ) < 1 - 0 then (⌈((1 : ℚ) - 0) / 1⌉ : ℤ) else 0) *
          max 1 (([("A.B", ((0 : ℚ), (0 : ℚ)))] : List (String × ℚ × ℚ)).length : ℤ)
          * 4 : ℤ) : ℚ) / (1024 * 1024) * (3 / 2)) := by
    rw [if_pos (by norm_num), hceil]
    norm_num
  have hkeys : (prepare_meta [] [("A.B", ((0 : ℚ), (0 : ℚ)))] 0 1 1).station_keys = [] := rfl
  refine ⟨by simp, h1, h2, h3, hkeys, ?_⟩
  exact ((prepare_retention_spec [] [("A.B", ((0 : ℚ), (0 : ℚ)))] 0 1 1 10 4096).2.2
    (by simp) h1 h2 h3 hkeys).1

theorem trim_round_trip_spec_witness :
    (0 : ℚ) < 1 ∧ 1 ≤ ([(1 : ℚ), 2] : List ℚ).length ∧ (-1 : ℚ) ≤ 0 ∧
      (0 : ℚ) + ((([(1 : ℚ), 2] : List ℚ).length : ℚ) - 1) / 1 ≤ 5 ∧
      (trimTrace ⟨"XX", "ABC", 0, 1, [(1 : ℚ), 2]⟩ (-1) 5).data = [(1 : ℚ), 2] := by
  refine ⟨by norm_num, by norm_num, by norm_num, by norm_num, ?_⟩
  exact trim_round_trip_spec ⟨"XX", "ABC", 0, 1, [(1 : ℚ), 2]⟩ (-1) 5
    (by norm_num) (by norm_num) (by norm_num) (by norm_num)

/-- C3: the budget guard computes frames = ceil((end-start)/step) and memory
= frames * stations * 4 bytes scaled by 1.5, and exits with status 1 before
`prepare_meta` runs (the outcome does not depend on the ingested traces) when
the window is empty, the frame ceiling is exceeded, or the memory ceiling is
exceeded. -/
theorem budget_guard_spec (st st' : List PyTrace) (positions : List (String × ℚ × ℚ))
    (s e tstep : ℚ) (maxFrames maxMemMb : ℤ) (dryRun : Bool)
    (hpos : positions ≠ []) :
    (e ≤ s →
      mainRun st positions s e tstep maxFrames maxMemMb dryRun
          = RunOutcome.exitEmptyWindow ∧
        exitCode (mainRun st positions s e tstep maxFrames maxMemMb dryRun) = 1 ∧
        mainRun st positions s e tstep maxFrames maxMemMb dryRun
          = mainRun st' positions s e tstep maxFrames maxMemMb dryRun) ∧
    (s < e → 0 < tstep → maxFrames < ⌈(e - s) / tstep⌉ →
      mainRun st positions s e tstep maxFrames maxMemMb dryRun
          = RunOutcome.exitTooManyFrames ∧
        exitCode (mainRun st positions s e tstep maxFrames maxMemMb dryRun) = 1 ∧
        mainRun st positions s e tstep maxFrames maxMemMb dryRun
          = mainRun st' positions s e tstep maxFrames maxMemMb dryRun) ∧
    (s < e → 0 < tstep → ⌈(e - s) / tstep⌉ ≤ maxFrames →
      (maxMemMb : ℚ) <
        ((⌈(e - s) / tstep⌉ * max 1 (positions.length : ℤ) * 4 : ℤ) : ℚ)
          / (1024 * 1024) * (3 / 2) →
      mainRun st positions s e tstep maxFrames maxMemMb dryRun
          = RunOutcome.exitMemExceeded ∧
        exitCode (mainRun st positions s e tstep maxFrames maxMemMb dryRun) = 1 ∧
        mainRun st positions s e tstep maxFrames maxMemMb dryRun
          = mainRun st' positions s e tstep maxFrames maxMemMb dryRun) := by
  refine ⟨?_, ?_, ?_⟩
  · intro hse
    have hdur : ¬(0 < e - s) := by linarith
    have hrun : ∀ stx : List PyTrace,
        mainRun stx positions s e tstep maxFrames maxMemMb dryRun
          = RunOutcome.exitEmptyWindow := by
      intro stx
      unfold mainRun
      rw [if_neg hpos, if_neg hdur]
      rw [if_pos (le_refl (0 : ℤ))]
    exact ⟨hrun st, by rw [hrun st]; rfl, by rw [hrun st, hrun st']⟩
  · intro hse hstep hmf
    have hdur : 0 < e - s := by linarith
    have hceil : (0 : ℤ) < ⌈(e - s) / tstep⌉ :=
      Int.ceil_pos.mpr (div_pos hdur hstep)
    have hrun : ∀ stx : List PyTrace,
        mainRun stx positions s e tstep maxFrames maxMemMb dryRun
          = RunOutcome.exitTooManyFrames := by
      intro stx
      unfold mainRun
      rw [if_neg hpos, if_pos hdur]
      rw [if_neg (by omega : ¬(⌈(e - s) / tstep⌉ ≤ 0)), if_pos hmf]
    exact ⟨hrun st, by rw [hrun st]; rfl, by rw [hrun st, hrun st']⟩
  · intro hse hstep hmf hmem
    have hdur : 0 < e - s := by linarith
    have hceil : (0 : ℤ) < ⌈(e - s) / tstep⌉ :=
      Int.ceil_pos.mpr (div_pos hdur hstep)
    have hrun : ∀ stx : List PyTrace,
        mainRun stx positions s e tstep maxFrames maxMemMb dryRun
          = RunOutcome.exitMemExceeded := by
      intro stx
      unfold mainRun
      rw [if_neg hpos, if_pos hdur]
      rw [if_neg (by omega : ¬(⌈(e - s) / tstep⌉ ≤ 0)),
        if_neg (not_lt.mpr hmf), if_pos hmem]
    exact ⟨hrun st, by rw [hrun st]; rfl, by rw [hrun st, hrun st']⟩

theorem budget_guard_spec_witness :
    ([("A.B", ((0 : ℚ), (0 : ℚ)))] : List (String × ℚ × ℚ)) ≠ [] ∧
    (0 : ℚ) < 600 ∧ (0 : ℚ) < 1 ∧ (100 : ℤ) < ⌈((600 : ℚ) - 0) / 1⌉ ∧
    mainRun [⟨"XX", "ABC", 0, 1, [(1 : ℚ)]⟩] [("A.B", ((0 : ℚ), (0 : ℚ)))]
        0 600 1 100 4096 false = RunOutcome.exitTooManyFrames ∧
    exitCode (mainRun [⟨"XX", "ABC", 0, 1, [(1 : ℚ)]⟩] [("A.B", ((0 : ℚ), (0 : ℚ)))]
        0 600 1 100 4096 false) = 1 := by
  have hceil : (100 : ℤ) < ⌈((600 : ℚ) - 0) / 1⌉ := by norm_num
  have h := (budget_guard_spec [⟨"XX", "ABC", 0, 1, [(1 : ℚ)]⟩] []
    [("A.B", ((0 : ℚ), (0 : ℚ)))] 0 600 1 100 4096 false (by simp)).2.1
    (by norm_num) (by norm_num) hceil
  exact ⟨by simp, by norm_num, by norm_num, hceil, h.1, h.2.1⟩

/-- The claim's reading of one coordinate-table row: after the header, a
non-blank row with exactly four comma-separated fields maps key
"network.station" to its parsed (latitude, longitude); a row with exactly
three fields maps the bare station name; every other row yields nothing. -/
def csvRowEntry (pf : String → ℚ) (line : String) : Option (String × ℚ × ℚ) :=
  if line.trim = "" then none
  else
    match parse_fields line with
    | [net, sta, lat, lon] => some (net ++ "." ++ sta, pf lat, pf lon)
    | [sta, lat, lon] => some (sta, pf lat, pf lon)
    | _ => none

theorem csv_step_eq_row_entry (pf : String → ℚ) (d : List (String × ℚ × ℚ))
    (line : String) :
    csv_step pf d line =
      match csvRowEntry pf line with
      | some kv => insertA d kv.1 kv.2
      | none => d := by
  unfold csv_step csvRowEntry
  by_cases hb : line.trim = ""
  · rw [if_pos hb, if_pos hb]
  · rw [if_neg hb, if_neg hb]
    generalize parse_fields line = ps
    rcases ps with _ | ⟨a, _ | ⟨b, _ | ⟨c, _ | ⟨d4, _ | rest⟩⟩⟩⟩ <;> rfl

/-- C9: the coordinate-table loader drops the header line, then folds the
remaining rows through the row classifier: 4-field rows keyed
"network.station", 3-field rows keyed by station, everything else (and blank
lines) skipped, each accepted row binding its key to the parsed pair. -/
theorem load_station_csv_spec (pf : String → ℚ) (hdr : String) (rows : List String) :
    load_station_csv pf (hdr :: rows) =
      rows.foldl (fun d line =>
        match csvRowEntry pf line with
        | some kv => insertA d kv.1 kv.2
        | none => d) [] ∧
    load_station_csv pf [] = [] := by
  constructor
  · unfold load_station_csv
    exact List.foldl_ext _ _ _ (fun d line _ => csv_step_eq_row_entry pf d line)
  · rfl

/-- The first SAC trace carrying header coordinates for a key (the binding
the SAC loop of `main` keeps, since it skips keys already present). -/
def sacFirst : List (String × Option (ℚ × ℚ)) → String → Option (ℚ × ℚ)
  | [], _ => none
  | kv :: rest, k =>
      match kv.2 with
      | some p => if kv.1 = k then some p else sacFirst rest k
      | none => sacFirst rest k

theorem sacFold_lookup :
    ∀ (sac : List (String × Option (ℚ × ℚ))) (d : List (String × ℚ × ℚ)) (k : String),
      lookupA (sac.foldl
          (fun d kv =>
            match kv.2 with
            | some p => if (lookupA d kv.1).isSome then d else insertA d kv.1 p
            | none => d) d) k
        = orElseO (lookupA d k) (sacFirst sac k) := by
  intro sac
  induction sac with
  | nil =>
      intro d k
      rw [List.foldl_nil]
      rcases lookupA d k with _ | v <;> rfl
  | cons kv rest ih =>
      intro d k
      rw [List.foldl_cons]
      rcases hp : kv.2 with _ | p
      · simp only [hp]
        rw [ih]
        simp only [sacFirst, hp]
      · simp only [hp]
        by_cases hs : (lookupA d kv.1).isSome = true
        · rw [if_pos hs, ih]
          simp only [sacFirst, hp]
          by_cases hk : kv.1 = k
          · rw [if_pos hk, ← hk]
            rcases hl : lookupA d kv.1 with _ | v
            · rw [hl] at hs
              exact absurd hs (by simp)
            · rfl
          · rw [if_neg hk]
        · rw [if_neg hs, ih, lookupA_insertA]
          simp only [sacFirst, hp]
          by_cases hk : k = kv.1
          · rw [if_pos hk, if_pos hk.symm]
            have hl : lookupA d k = none := by
              rw [hk]
              rcases hl2 : lookupA d kv.1 with _ | v
              · rfl
              · rw [hl2] at hs
                exact absurd (by simp : (some v).isSome = true) hs
            rw [hl]
            rfl
          · rw [if_neg hk, if_neg (fun hh => hk hh.symm)]

/-- C2 (amended): `main` merges position sources by sequential dict update:
SEG-Y inferred geometry is loaded first, then a StationXML inventory (or,
failing that, a coordinate CSV) is applied on top and OVERWRITES inferred
positions for shared keys; SAC header coordinates are consulted only when
neither inventory nor CSV is supplied, and then only for keys not already
resolved from inferred geometry. -/
theorem resolve_precedence_spec (segyPos inv tbl : List (String × ℚ × ℚ))
    (sacTraces : List (String × Option (ℚ × ℚ)))
    (csvOpt : Option (List (String × ℚ × ℚ))) (k : String) (v : ℚ × ℚ) (p : ℚ × ℚ) :
    (lookupLast inv k = some v →
      lookupA (resolvePositions segyPos (some inv) csvOpt sacTraces) k = some v) ∧
    (lookupLast tbl k = some v →
      lookupA (resolvePositions segyPos none (some tbl) sacTraces) k = some v) ∧
    (lookupA (updateA [] segyPos) k = some v →
      lookupA (resolvePositions segyPos none none sacTraces) k = some v) ∧
    (lookupA (updateA [] segyPos) k = none → sacFirst sacTraces k = some p →
      lookupA (resolvePositions segyPos none none sacTraces) k = some p) := by
  refine ⟨?_, ?_, ?_, ?_⟩
  · intro h
    unfold resolvePositions
    rw [lookupA_updateA, h]
    rfl
  · intro h
    unfold resolvePositions
    rw [lookupA_updateA, h]
    rfl
  · intro h
    unfold resolvePositions
    rw [sacFold_lookup, h]
    rfl
  · intro h hsac
    unfold resolvePositions
    rw [sacFold_lookup, h, hsac]
    rfl

theorem resolve_precedence_spec_witness :
    lookupLast [("A.B", ((3 : ℚ), (4 : ℚ)))] "A.B" = some ((3 : ℚ), (4 : ℚ)) ∧
    lookupA (resolvePositions [("A.B", ((1 : ℚ), (1 : ℚ)))]
        (some [("A.B", ((3 : ℚ), (4 : ℚ)))]) none []) "A.B"
      = some ((3 : ℚ), (4 : ℚ)) := by
  have h : lookupLast [("A.B", ((3 : ℚ), (4 : ℚ)))] "A.B" = some ((3 : ℚ), (4 : ℚ)) := by
    simp [lookupLast]
  exact ⟨h, (resolve_precedence_spec [("A.B", ((1 : ℚ), (1 : ℚ)))]
    [("A.B", ((3 : ℚ), (4 : ℚ)))] [] [] none "A.B" ((3 : ℚ), (4 : ℚ))
    ((0 : ℚ), (0 : ℚ))).1 h⟩

/-- C2 counterexample: a key already resolved from SEG-Y inferred geometry IS
overwritten when a StationXML inventory supplies the same key, so "a position
already resolved is never overwritten by any later-consulted source" fails. -/
theorem resolve_overwrite_counterexample :
    lookupA (updateA ([] : List (String × ℚ × ℚ)) [("SGY.SGY.00001", ((1 : ℚ), (1 : ℚ)))])
        "SGY.SGY.00001" = some ((1 : ℚ), (1 : ℚ)) ∧
    lookupA (resolvePositions [("SGY.SGY.00001", ((1 : ℚ), (1 : ℚ)))]
        (some [("SGY.SGY.00001", ((2 : ℚ), (2 : ℚ)))]) none []) "SGY.SGY.00001"
      = some ((2 : ℚ), (2 : ℚ)) ∧
    (((2 : ℚ), (2 : ℚ)) : ℚ × ℚ) ≠ ((1 : ℚ), (1 : ℚ)) := by
  refine ⟨by simp [updateA, insertA, lookupA], ?_, by simp⟩
  simp [resolvePositions, updateA, insertA, lookupA]

/-- Running maximum of scores over a candidate list starting from `m`. -/
def runMax (f : ℚ → ℚ) (cs : List ℚ) (m : ℚ) : ℚ :=
  cs.foldl (fun a c => max a (f c)) m

theorem runMax_init_le (f : ℚ → ℚ) : ∀ (cs : List ℚ) (m : ℚ), m ≤ runMax f cs m := by
  intro cs
  induction cs with
  | nil => intro m; exact le_refl m
  | cons c cs ih =>
      intro m
      have h1 : m ≤ max m (f c) := le_max_left m (f c)
      have h2 : max m (f c) ≤ runMax f cs (max m (f c)) := ih (max m (f c))
      exact le_trans h1 h2

theorem runMax_le_mem (f : ℚ → ℚ) :
    ∀ (cs : List ℚ) (m : ℚ) (c : ℚ), c ∈ cs → f c ≤ runMax f cs m := by
  intro cs
  induction cs with
  | nil => intro m c hc; exact absurd hc (List.not_mem_nil c)
  | cons c0 cs ih =>
      intro m c hc
      rcases List.mem_cons.mp hc with heq | hmem
      · subst heq
        exact le_trans (le_max_right m (f c)) (runMax_init_le f cs (max m (f c)))
      · exact ih (max m (f c0)) c hmem

theorem foldl_pickStep_char (f : ℚ → ℚ) :
    ∀ (cs : List ℚ) (b : Option ℚ) (m : ℚ),
      cs.foldl (pickStep f) (b, m) =
        if m < runMax f cs m then
          (cs.find? (fun c => decide (runMax f cs m ≤ f c)), runMax f cs m)
        else (b, m) := by
  intro cs
  induction cs with
  | nil =>
      intro b m
      rw [List.foldl_nil]
      simp only [runMax, List.foldl_nil]
      rw [if_neg (lt_irrefl m)]
  | cons c cs ih =>
      intro b m
      rw [List.foldl_cons]
      have hrm : runMax f (c :: cs) m = runMax f cs (max m (f c)) := rfl
      by_cases hc : m < f c
      · have hstep : pickStep f (b, m) c = (some c, f c) := by
          unfold pickStep
          rw [if_pos hc]
        rw [hstep, ih]
        have hmax : max m (f c) = f c := max_eq_right (le_of_lt hc)
        have hrm2 : runMax f (c :: cs) m = runMax f cs (f c) := by rw [hrm, hmax]
        have houter : m < runMax f (c :: cs) m := by
          rw [hrm2]
          exact lt_of_lt_of_le hc (runMax_init_le f cs (f c))
        rw [if_pos houter, hrm2]
        by_cases h2 : f c < runMax f cs (f c)
        · rw [if_pos h2]
          have hpredc : ¬(runMax f cs (f c) ≤ f c) = true := by
            simp only [decide_eq_true_eq, eq_iff_iff, iff_true]
            exact not_le.mpr h2
          rw [List.find?_cons_of_neg _ (by simpa using not_le.mpr h2)]
        · rw [if_neg h2]
          have hle : runMax f cs (f c) = f c :=
            le_antisymm (not_lt.mp h2) (runMax_init_le f cs (f c))
          rw [List.find?_cons_of_pos _ (by simp [hle])]
          rw [hle]
      · have hstep : pickStep f (b, m) c = (b, m) := by
          unfold pickStep
          rw [if_neg hc]
        rw [hstep, ih]
        have hmax : max m (f c) = m := max_eq_left (not_lt.mp hc)
        have hrm2 : runMax f (c :: cs) m = runMax f cs m := by rw [hrm, hmax]
        by_cases h2 : m < runMax f cs m
        · rw [if_pos h2, if_pos (by rw [hrm2]; exact h2), hrm2]
          have hfc : f c < runMax f cs m := lt_of_le_of_lt (not_lt.mp hc) h2
          rw [List.find?_cons_of_neg _ (by simpa using not_le.mpr hfc)]
        · rw [if_neg h2, if_neg (by rw [hrm2]; exact h2)]

theorem inRangeFrac_nonneg (gx gy : List ℚ) (sc : ℚ) : 0 ≤ inRangeFrac gx gy sc := by
  unfold inRangeFrac
  apply div_nonneg
  · exact_mod_cast Nat.zero_le _
  · exact_mod_cast Nat.zero_le _

/-- Modelled from the amended claim: the resolver's choice is the candidate
with the maximal in-range fraction, the earliest (largest) candidate among
those attaining the maximum, returned iff that maximum is at least 0.95. -/
def pick_scale_spec (gx gy : List ℚ) : Option ℚ :=
  if 95 / 100 ≤ runMax (inRangeFrac gx gy) candidates (-1) then
    candidates.find?
      (fun c => decide (runMax (inRangeFrac gx gy) candidates (-1) ≤ inRangeFrac gx gy c))
  else none

/-- C1 (amended): `_pick_segy_scale` selects the candidate with the highest
in-range fraction (ties broken toward the first, i.e. largest, candidate) and
returns it iff that best fraction reaches 0.95 — not the largest candidate
whose own fraction reaches 0.95. The running maximum bounds every candidate's
fraction. -/
theorem pick_scale_eq_spec (gx gy : List ℚ) :
    _pick_segy_scale gx gy = pick_scale_spec gx gy ∧
    ∀ c ∈ candidates,
      inRangeFrac gx gy c ≤ runMax (inRangeFrac gx gy) candidates (-1) := by
  constructor
  · unfold _pick_segy_scale pick_scale_spec
    rw [foldl_pickStep_char (inRangeFrac gx gy) candidates none (-1)]
    have hneg : (-1 : ℚ) < runMax (inRangeFrac gx gy) candidates (-1) := by
      have h0 : (0 : ℚ) ≤ inRangeFrac gx gy (1 / 1000) := inRangeFrac_nonneg gx gy _
      have hmem : (1 / 1000 : ℚ) ∈ candidates := by
        unfold candidates
        exact List.mem_cons_self _ _
      have := runMax_le_mem (inRangeFrac gx gy) candidates (-1) (1 / 1000) hmem
      linarith
    rw [if_pos hneg]
  · intro c hc
    exact runMax_le_mem (inRangeFrac gx gy) candidates (-1) c hc

/-- GroupX header column of the scale-inference counterexample: nineteen
pairs valid at every scale from 1e-3 down, one pair valid only from 1e-4
down. -/
def gxC : List ℚ :=
  [1000, 1000, 1000, 1000, 1000, 1000, 1000, 1000, 1000, 1000,
   1000, 1000, 1000, 1000, 1000, 1000, 1000, 1000, 1000, 200000]

/-- GroupY header column of the scale-inference counterexample. -/
def gyC : List ℚ :=
  [1000, 1000, 1000, 1000, 1000, 1000, 1000, 1000, 1000, 1000,
   1000, 1000, 1000, 1000, 1000, 1000, 1000, 1000, 1000, 0]

theorem gxC_gyC_fracs :
    inRangeFrac gxC gyC (1 / 1000) = 19 / 20 ∧
    inRangeFrac gxC gyC (1 / 10000) = 1 ∧
    inRangeFrac gxC gyC (1 / 100000) = 1 ∧
    inRangeFrac gxC gyC (1 / 1000000) = 1 ∧
    inRangeFrac gxC gyC (1 / 10000000) = 1 ∧
    inRangeFrac gxC gyC (1 / 100000000) = 1 ∧
    inRangeFrac gxC gyC (1 / 1000000000) = 1 := by
  refine ⟨?_, ?_, ?_, ?_, ?_, ?_, ?_⟩ <;>
    norm_num [inRangeFrac, inRangeQ, gxC, gyC, List.zip, List.zipWith, List.countP,
      List.countP.go]

/-- C1 counterexample: the largest candidate 1e-3 reaches the 0.95 in-range
fraction, yet the picker returns 1e-4 (which has a strictly higher fraction),
refuting "the largest scale factor whose in-range fraction is >= 0.95 is
chosen". -/
theorem pick_scale_largest_counterexample :
    candidates.head? = some (1 / 1000) ∧
    95 / 100 ≤ inRangeFrac gxC gyC (1 / 1000) ∧
    _pick_segy_scale gxC gyC = some (1 / 10000) ∧
    ((1 / 10000 : ℚ) ≠ 1 / 1000) := by
  obtain ⟨h3, h4, h5, h6, h7, h8, h9⟩ := gxC_gyC_fracs
  refine ⟨rfl, by rw [h3]; norm_num, ?_, by norm_num⟩
  unfold _pick_segy_scale candidates
  simp only [List.foldl_cons, List.foldl_nil, pickStep, h3, h4, h5, h6, h7, h8, h9]
  norm_num

theorem lookupA_foldl_insert_of_mem {V : Type} :
    ∀ (l : List (String × V)) (k : String) (d : List (String × V)),
      k ∈ l.map Prod.fst ∨ (lookupA d k).isSome = true →
      (lookupA (l.foldl (fun a kv => insertA a kv.1 kv.2) d) k).isSome = true := by
  intro l
  induction l with
  | nil =>
      intro k d h
      rcases h with h | h
      · exact absurd h (by simp)
      · exact h
  | cons kv rest ih =>
      intro k d h
      rw [List.foldl_cons]
      apply ih
      rcases h with h | h
      · rw [List.map_cons] at h
        rcases List.mem_cons.mp h with heq | hmem
        · right
          rw [lookupA_insertA, if_pos heq]
          rfl
        · left
          exact hmem
      · right
        rw [lookupA_insertA]
        by_cases hk : k = kv.1
        · rw [if_pos hk]
          rfl
        · rw [if_neg hk]
          exact h

/-- C10: when no candidate scale reaches the 0.95 threshold, every header
pair is scaled by the fixed default 1e-6, and every trace's key receives a
position in the returned dict. -/
theorem segy_scale_fallback_spec (gx gy : List ℚ)
    (h : _pick_segy_scale gx gy = none) :
    segyAssignments gx gy =
      ((gx.zip gy).enum).map
        (fun p => (segyKey (p.1 + 1), (p.2.2 * (1 / 1000000), p.2.1 * (1 / 1000000)))) ∧
    ∀ i : ℕ, i < (gx.zip gy).length →
      (lookupA (segy_to_stream_positions gx gy) (segyKey (i + 1))).isSome = true := by
  have hscale : segyScale gx gy = 1 / 1000000 := by
    unfold segyScale
    rw [h]
  constructor
  · unfold segyAssignments
    rw [hscale]
  · intro i hi
    unfold segy_to_stream_positions
    apply lookupA_foldl_insert_of_mem
    left
    unfold segyAssignments
    rw [List.map_map]
    have hxy : ∃ xy, (gx.zip gy)[i]? = some xy := ⟨_, List.getElem?_eq_getElem hi⟩
    obtain ⟨xy, hxy⟩ := hxy
    exact List.mem_map.mpr
      ⟨(i, xy), List.mk_mem_enum_iff_getElem?.mpr hxy, rfl⟩

theorem segy_scale_fallback_spec_witness :
    _pick_segy_scale [(1000000000000 : ℚ)] [(1000000000000 : ℚ)] = none ∧
    (lookupA (segy_to_stream_positions [(1000000000000 : ℚ)] [(1000000000000 : ℚ)])
        (segyKey 1)).isSome = true := by
  have h : _pick_segy_scale [(1000000000000 : ℚ)] [(1000000000000 : ℚ)] = none := by
    norm_num [_pick_segy_scale, candidates, pickStep, inRangeFrac, inRangeQ,
      List.zip, List.zipWith, List.countP, List.countP.go, List.foldl_cons,
      List.foldl_nil]
  exact ⟨h, (segy_scale_fallback_spec _ _ h).2 0 (by simp [List.zip])⟩

end GMV
